import Mathlib

/-!
Verification of the Crispy font-engineering scripts.

This file gives a shallow embedding of the original logic of the repository:

* `generate_new_designspace.py` — CSV-driven extension-axis discovery,
  axis merging, master-source duplication (with its file-system effects),
  instance coordinate assignment and the XML default-normalization pass;
* `sources/widths-inspector.py` and `sources/widths-inspector-2.py` — the
  per-instance width-measurement processing function.

Python `float` cell values are modelled as exact rationals (`Rat`); CSV cells
are modelled as already parsed: a cell is `none` when the cell is the empty
string (falsy in Python) and `some v` when it holds the numeric value `v`.
Non-numeric cells make the script raise inside `float` and are outside the
scope of every claim.  Python dicts keyed by strings are modelled as
association lists with dict-style insertion (`dictInsert`); dict lookup is
`List.lookup`.  The file system touched by `shutil` / `os.path` is modelled
as the set of existing directory paths.
-/

/-- Numeric values of the scripts (Python floats, modelled exactly). -/
abbrev Val := Rat

/-- Python dict assignment `d[k] = v`: replace the value when the key is
already present (keeping its position), otherwise append the new binding. -/
def dictInsert {α β : Type} [BEq α] (d : List (α × β)) (k : α) (v : β) : List (α × β) :=
  if d.any (fun p => p.1 == k) then
    d.map (fun p => if p.1 == k then (k, v) else p)
  else
    d ++ [(k, v)]

/-- A designspace location (`source.location` / `instance.location`):
a dict from axis name to coordinate. -/
abbrev Loc := List (String × Val)

/-- One parsed CSV data row: the `Instance` cell (a string) and the remaining
cells in header order, each empty (`none`) or numeric. -/
structure CSVRow where
  instanceName : String
  cells : List (String × Option Val)
deriving DecidableEq, Repr

/-- A CSV file as seen through `csv.DictReader`: `fieldnames` is `none` for an
empty/malformed file (no header row), and the list of data rows. -/
structure CSVFile where
  fieldnames : Option (List String)
  rows : List CSVRow
deriving DecidableEq, Repr

/-- `needle.isPrefixOf hay` on character lists, written out. -/
def startsWithChars : List Char → List Char → Bool
  | [], _ => true
  | _ :: _, [] => false
  | a :: as, b :: bs => a == b && startsWithChars as bs

/-- Substring containment on character lists (Python `needle in hay`). -/
def hasSubstr : List Char → List Char → Bool
  | needle, [] => startsWithChars needle []
  | needle, c :: tl => startsWithChars needle (c :: tl) || hasSubstr needle tl

/-- `'-e' in h` — the extension-axis naming convention
(`generate_new_designspace.py`, line 26). -/
def containsE (h : String) : Bool :=
  hasSubstr "-e".toList h.toList

/-- `e_axes = [h for h in reader.fieldnames if '-e' in h]`
(`generate_new_designspace.py`, line 26). -/
def eAxesOf (fieldnames : List String) : List String :=
  fieldnames.filter containsE

/-- The value a row holds for an axis, as used by
`if axis in row and row[axis]` (line 36): `none` when the axis is not a
column of the row or the cell is empty. -/
def cellValue (r : CSVRow) (axis : String) : Option Val :=
  match r.cells.lookup axis with
  | some v => v
  | none => none

/-- `values = [float(row[axis]) for row in rows if axis in row and row[axis]]`
(`generate_new_designspace.py`, line 36). -/
def axisValues (rows : List CSVRow) (axis : String) : List Val :=
  rows.filterMap (fun r => cellValue r axis)

/-- One step of Python `min` folded over a list with `float('inf')` as the
starting accumulator; `none` models `inf` (no value seen yet). -/
def minFoldStep {α : Type} (f : α → Option Val) (acc : Option Val) (x : α) : Option Val :=
  match f x with
  | some v => some (match acc with | some m => min m v | none => v)
  | none => acc

/-- Minimum of the values `f` yields on `l`, `none` when there are none. -/
def minFoldBy {α : Type} (f : α → Option Val) (l : List α) : Option Val :=
  l.foldl (minFoldStep f) none

/-- One step of Python `max` folded over a list. -/
def maxFoldStep {α : Type} (f : α → Option Val) (acc : Option Val) (x : α) : Option Val :=
  match f x with
  | some v => some (match acc with | some m => max m v | none => v)
  | none => acc

/-- Maximum of the values `f` yields on `l`, `none` when there are none. -/
def maxFoldBy {α : Type} (f : α → Option Val) (l : List α) : Option Val :=
  l.foldl (maxFoldStep f) none

/-- Python `min(values)` on a list of floats; `none` models the `ValueError`
raised on an empty sequence. -/
def listMin (l : List Val) : Option Val :=
  minFoldBy some l

/-- Python `max(values)` on a list of floats. -/
def listMax (l : List Val) : Option Val :=
  maxFoldBy some l

/-- `axis_minmax[axis] = {'min': min(values), 'max': max(values)}`
(`generate_new_designspace.py`, line 37); `none` models the `ValueError`
raised by `min`/`max` when no row has a value for the axis. -/
def axisMinmax (rows : List CSVRow) (axis : String) : Option (Val × Val) :=
  let values := axisValues rows axis
  match listMin values, listMax values with
  | some m, some M => some (m, M)
  | _, _ => none

/-- Per-style sub-dict `{k: float(v) for k, v in row.items() if k != 'Instance' and v}`
(line 32); `r.cells` already excludes the `Instance` column. -/
def rowSubDict (r : CSVRow) : List (String × Val) :=
  r.cells.filterMap (fun p => p.2.map (fun v => (p.1, v)))

/-- Python `str.strip()`: drop leading and trailing whitespace. -/
def pyStrip (s : String) : String :=
  String.mk (((s.toList.dropWhile Char.isWhitespace).reverse.dropWhile Char.isWhitespace).reverse)

/-- `style_lookup[style] = {...}` built over all rows
(`generate_new_designspace.py`, lines 29–32); the style key is the stripped
`Instance` cell. -/
def build_style_lookup (rows : List CSVRow) : List (String × List (String × Val)) :=
  rows.foldl (fun acc row => dictInsert acc (pyStrip row.instanceName) (rowSubDict row)) []

/-- Everything `get_e_axes_and_lookup` (lines 19–41) returns. -/
structure Discovery where
  e_axes : List String
  axis_minmax : List (String × (Val × Val))
  style_lookup : List (String × List (String × Val))
  rows : List CSVRow
deriving DecidableEq, Repr

/-- `get_e_axes_and_lookup` (`generate_new_designspace.py`, lines 19–41).
`Except.error` models the two failure modes: `exit(1)` on a missing header,
and the `ValueError` raised by `min()` on an extension-axis column in which
no row has a value. -/
def get_e_axes_and_lookup (csv : CSVFile) : Except String Discovery :=
  match csv.fieldnames with
  | none => Except.error "Error: CSV file is empty or malformed. No headers found."
  | some fns =>
    let e_axes := eAxesOf fns
    let style_lookup := build_style_lookup csv.rows
    match e_axes.mapM (fun axis => (axisMinmax csv.rows axis).map (fun p => (axis, p))) with
    | some mm => Except.ok { e_axes := e_axes, axis_minmax := mm, style_lookup := style_lookup, rows := csv.rows }
    | none => Except.error "ValueError: min() arg is an empty sequence"

/-! ## Designspace document model (`fontTools.designspaceLib` descriptors) -/

/-- `AxisDescriptor`: the fields the scripts read and write. -/
structure AxisDescriptor where
  name : String
  tag : String
  minimum : Val
  maximum : Val
  default : Val
deriving DecidableEq, Repr

/-- `SourceDescriptor`: the fields the scripts read and write. -/
structure SourceDescriptor where
  filename : String
  name : String
  familyName : String
  styleName : String
  location : Loc
deriving DecidableEq, Repr

/-- `InstanceDescriptor`: `styleName` may be unset (`None`), and `location`
may be unset (`None`) before the script fills it in. -/
structure InstanceDescriptor where
  styleName : Option String
  location : Option Loc
deriving DecidableEq, Repr

/-- The axis descriptor `ensure_e_axes` appends for a newly discovered axis
(`generate_new_designspace.py`, lines 49–55). -/
def mkAxis (bounds : String → Val × Val) (axis : String) : AxisDescriptor :=
  { name := axis
    tag := String.mk (axis.toList.take 4)
    minimum := (bounds axis).1
    maximum := (bounds axis).2
    default := (bounds axis).1 }

/-- `ensure_e_axes(doc, e_axes, axis_minmax)` (lines 44–58): the list of
existing axis names is computed once, then each discovered axis not among
them is appended.  `bounds` is the `axis_minmax` dict as a function; the
script only ever queries it at members of `e_axes`. -/
def ensure_e_axes (axes : List AxisDescriptor) (e_axes : List String)
    (bounds : String → Val × Val) : List AxisDescriptor :=
  let existing_axis_names := axes.map (fun a => a.name)
  e_axes.foldl
    (fun acc axis =>
      if existing_axis_names.contains axis then acc else acc ++ [mkAxis bounds axis])
    axes

/-! ## File-system model and source duplication -/

/-- The file system as the set of directory paths that exist. -/
abbrev FS := List String

/-- `os.path.exists` on the modelled file system. -/
def fsExists (fs : FS) (p : String) : Bool :=
  fs.contains p

/-- `shutil.rmtree(p)`. -/
def rmtree (fs : FS) (p : String) : FS :=
  fs.filter (fun q => !(q == p))

/-- `shutil.copytree(src, dst)`: the destination directory now exists.
The script only calls it after checking that `src` exists. -/
def copytree (fs : FS) (dst : String) : FS :=
  dst :: fs

/-- `os.path.join(a, b)` for a non-empty `a` with no trailing separator and a
relative `b`, the only shapes the script uses. -/
def pathJoin (a b : String) : String :=
  a ++ "/" ++ b

/-- `UFO_SOURCE_DIR` (`generate_new_designspace.py`, line 13). -/
def UFO_SOURCE_DIR : String := "master_ufo"

/-- `UFO_OUTPUT_DIR` (line 14). -/
def UFO_OUTPUT_DIR : String := "master_ufo"

/-- `OUTPUT_DESIGNSPACE` (line 16). -/
def OUTPUT_DESIGNSPACE : String := pathJoin UFO_OUTPUT_DIR "Crispy-updated.designspace"

/-- `os.path.basename`: the component after the last path separator
(accumulate characters, restarting at every `'/'`). -/
def basename (p : String) : String :=
  String.mk (p.toList.foldl (fun acc c => if c == '/' then [] else acc ++ [c]) [])

/-- `os.path.dirname`: everything before the last path separator (empty when
there is none — the script only applies it to `OUTPUT_DESIGNSPACE`). -/
def dirname (p : String) : String :=
  match p.toList.reverse.dropWhile (fun c => !(c == '/')) with
  | [] => ""
  | _ :: rest => String.mk rest.reverse

/-- Split a character list at its last `'.'`: `some (b, a)` with
`b ++ '.' :: a` the input and no `'.'` in `a`; `none` when there is no dot. -/
def splitDotLast : List Char → Option (List Char × List Char)
  | [] => none
  | c :: cs =>
    match splitDotLast cs with
    | some (b, a) => some (c :: b, a)
    | none => if c == '.' then some ([], cs) else none

/-- `os.path.splitext` on a character list: split off the extension at the
last dot, ignoring leading dots. -/
def splitextChars (cs : List Char) : List Char × List Char :=
  match splitDotLast (cs.dropWhile (fun c => c == '.')) with
  | some (b, a) => (cs.takeWhile (fun c => c == '.') ++ b, '.' :: a)
  | none => (cs, [])

/-- `os.path.splitext` on a name without separators (the script applies it to
a basename). -/
def splitext (p : String) : String × String :=
  (String.mk (splitextChars p.toList).1, String.mk (splitextChars p.toList).2)

/-- Python `'-'.join`. -/
def joinDash : List String → String
  | [] => ""
  | [a] => a
  | a :: b :: rest => a ++ "-" ++ joinDash (b :: rest)

/-- `'-'.join([a+'Max' for a in e_axes])` (lines 71, 83, 85). -/
def suffixMax (e_axes : List String) : String :=
  joinDash (e_axes.map (fun a => a ++ "Max"))

/-- `orig_ufo_path = os.path.join(UFO_SOURCE_DIR, os.path.basename(source.filename))`
(line 69). -/
def origUfoPath (filename : String) : String :=
  pathJoin UFO_SOURCE_DIR (basename filename)

/-- `new_ufo_name = f"{ufo_base}-{...}{ufo_ext}"` (lines 70–71). -/
def newUfoName (e_axes : List String) (filename : String) : String :=
  (splitext (basename filename)).1 ++ "-" ++ suffixMax e_axes ++ (splitext (basename filename)).2

/-- `new_ufo_path = os.path.join(UFO_OUTPUT_DIR, new_ufo_name)` (line 72). -/
def newUfoPath (e_axes : List String) (filename : String) : String :=
  pathJoin UFO_OUTPUT_DIR (newUfoName e_axes filename)

/-- `os.path.relpath(p, base)` for the one shape the script uses: `p` directly
inside `base`. -/
def relpath (p base : String) : String :=
  if (base.toList ++ ['/']).isPrefixOf p.toList then
    String.mk (p.toList.drop (base.toList.length + 1))
  else p

/-- Lines 66–67: `for axis in e_axes: source.location[axis] = axis_minmax[axis]['min']` —
every extension axis of the original source is set to the discovered minimum. -/
def updateSourceMin (e_axes : List String) (bounds : String → Val × Val)
    (s : SourceDescriptor) : SourceDescriptor :=
  { s with location := e_axes.foldl (fun l axis => dictInsert l axis (bounds axis).1) s.location }

/-- Lines 81–88: the duplicate `SourceDescriptor` built from the (already
min-updated) original source; its location copies the original's and sets
every extension axis to the discovered maximum. -/
def dupSource (e_axes : List String) (bounds : String → Val × Val)
    (s : SourceDescriptor) : SourceDescriptor :=
  { filename := relpath (newUfoPath e_axes s.filename) (dirname OUTPUT_DESIGNSPACE)
    name := (splitext (basename s.filename)).1 ++ "-" ++ suffixMax e_axes
    familyName := s.familyName
    styleName := s.styleName ++ "-" ++ suffixMax e_axes
    location := e_axes.foldl (fun l axis => dictInsert l axis (bounds axis).2) s.location }

/-- The warning printed when the referenced master directory is absent
(line 77). -/
def missingSourceWarning (filename : String) : String :=
  "WARNING: Source UFO not found: " ++ origUfoPath filename ++ ". Skipping."

/-- The loop state of `duplicate_sources_and_update_designspace`:
the file system, the originals processed so far (with their locations already
forced to the minima), the `new_sources` list, and the warnings printed. -/
structure DupState where
  fs : FS
  processed : List SourceDescriptor
  new_sources : List SourceDescriptor
  warnings : List String
deriving DecidableEq, Repr

/-- One iteration of the loop of `duplicate_sources_and_update_designspace`
(lines 64–90): set the extension axes of the original to the minima, delete
any pre-existing directory at the destination path, then either skip with a
warning (missing original directory) or copy the directory and build the
duplicate source. -/
def dupStep (e_axes : List String) (bounds : String → Val × Val)
    (st : DupState) (source : SourceDescriptor) : DupState :=
  let src := updateSourceMin e_axes bounds source
  let new_ufo_path := newUfoPath e_axes source.filename
  let fs1 := if fsExists st.fs new_ufo_path then rmtree st.fs new_ufo_path else st.fs
  if fsExists fs1 (origUfoPath source.filename) then
    { fs := copytree fs1 new_ufo_path
      processed := st.processed ++ [src]
      new_sources := st.new_sources ++ [dupSource e_axes bounds src]
      warnings := st.warnings }
  else
    { fs := fs1
      processed := st.processed ++ [src]
      new_sources := st.new_sources
      warnings := st.warnings ++ [missingSourceWarning source.filename] }

/-- `duplicate_sources_and_update_designspace(doc, e_axes, axis_minmax)`
(lines 61–91): process every source, then `doc.sources.extend(new_sources)`.
Returns the final `doc.sources` list together with the final loop state. -/
def duplicate_sources_and_update_designspace (sources : List SourceDescriptor)
    (e_axes : List String) (bounds : String → Val × Val) (fs : FS) :
    List SourceDescriptor × DupState :=
  let final := sources.foldl (dupStep e_axes bounds) { fs := fs, processed := [], new_sources := [], warnings := [] }
  (final.processed ++ final.new_sources, final)

/-! ## Instance coordinate assignment -/

/-- The value the loop body of `update_instances_with_e_axes` assigns to one
axis of one instance (lines 97–105): the CSV value when the style name is
truthy (a non-empty string) and is a key of the lookup whose sub-dict has the
axis, and the midpoint `(min+max)/2` otherwise. -/
def instAxisValue (style_lookup : List (String × List (String × Val)))
    (bounds : String → Val × Val) (styleName : Option String) (axis : String) : Val :=
  let default_value := ((bounds axis).1 + (bounds axis).2) / 2
  match styleName with
  | some sn =>
    if sn = "" then default_value
    else
      match style_lookup.lookup sn with
      | some sub => (sub.lookup axis).getD default_value
      | none => default_value
  | none => default_value

/-- The per-instance loop of `update_instances_with_e_axes` (lines 96–108):
for each extension axis, compute the value and store it in the instance's
location (created as `{}` when unset). -/
def update_instance (e_axes : List String) (bounds : String → Val × Val)
    (style_lookup : List (String × List (String × Val)))
    (inst : InstanceDescriptor) : InstanceDescriptor :=
  e_axes.foldl
    (fun i axis =>
      { i with location := some (dictInsert (i.location.getD []) axis (instAxisValue style_lookup bounds i.styleName axis)) })
    inst

/-- `update_instances_with_e_axes(doc, e_axes, axis_minmax, style_lookup)`
(lines 94–108). -/
def update_instances_with_e_axes (instances : List InstanceDescriptor)
    (e_axes : List String) (bounds : String → Val × Val)
    (style_lookup : List (String × List (String × Val))) : List InstanceDescriptor :=
  instances.map (update_instance e_axes bounds style_lookup)

/-! ## Axis default normalization (XML post-processing pass) -/

/-- A serialized `<axis>` element.  `default` is the serialized attribute:
`some v` for the decimal rendering of `v`, `none` for the non-numeric string
`"inf"` that `str(float('inf'))` produces when no source has the axis. -/
structure XmlAxis where
  name : String
  tag : String
  minimum : Val
  maximum : Val
  default : Option Val
deriving DecidableEq, Repr

/-- `doc.write(output_path)` restricted to what the post-processing pass
reads back: the serialized `<axis>` elements of the document. -/
def serializeAxes (axes : List AxisDescriptor) : List XmlAxis :=
  axes.map (fun a => { name := a.name, tag := a.tag, minimum := a.minimum, maximum := a.maximum, default := some a.default })

/-- `min_values[axis]` as computed by the loop of
`set_axis_defaults_to_minimums` (lines 116–120): the minimum of the axis's
coordinate over all sources whose location has the axis, starting from
`float('inf')` (modelled as `none`). -/
def sourceMin (sources : List SourceDescriptor) (axis : String) : Option Val :=
  minFoldBy (fun s => s.location.lookup axis) sources

/-- `set_axis_defaults_to_minimums(output_path, doc)` (lines 111–132): every
serialized `<axis>` element whose name is an axis of the document gets its
`default` attribute overwritten with the minimum over the document's
sources. -/
def set_axis_defaults_to_minimums (docAxes : List AxisDescriptor)
    (sources : List SourceDescriptor) (xmlAxes : List XmlAxis) : List XmlAxis :=
  let axis_names := docAxes.map (fun a => a.name)
  xmlAxes.map (fun ax =>
    if axis_names.contains ax.name then { ax with default := sourceMin sources ax.name } else ax)

/-! ## Width inspector (`sources/widths-inspector.py` and `-2.py`)

The external compiler, the shaping library and the font parser are modelled
by their observable outputs: the subprocess exit status, the list of produced
binaries, and per binary the extracted axis mapping and measured width. -/

/-- One result row of `widths-inspector.py` (`{"Instance": ..., "Width": ...}`). -/
structure ResultRow1 where
  instanceName : String
  width : Int
deriving DecidableEq, Repr

/-- One produced binary as `widths-inspector.py` observes it. -/
structure Otf1 where
  stem : String
  width : Int
deriving DecidableEq, Repr

/-- `process_instances_with_harfbuzz` of `widths-inspector.py` (lines 28–73):
a non-zero compiler exit raises `CalledProcessError`, which the `except`
clause catches before any row is built, so the accumulated `results` list —
still empty — is returned. -/
def process_instances_with_harfbuzz1 (fontmakeExit : Int) (otfs : List Otf1)
    (text : String) : List ResultRow1 :=
  if fontmakeExit ≠ 0 then []
  else otfs.map (fun o => { instanceName := o.stem, width := o.width })

/-- One result row of `widths-inspector-2.py`: the instance name, one cell
per axis known when the row was built (`none` renders the placeholder `"-"`),
and the width column. -/
structure ResultRow where
  instanceName : String
  axisCells : List (String × Option Val)
  widthKey : String
  width : Int
deriving DecidableEq, Repr

/-- One produced binary as `widths-inspector-2.py` observes it: its stem, the
mapping `extract_axes_from_otf` returns for it (axis tags map to `None`,
named instances map to their coordinate dict — an extraction failure yields
the empty mapping), and the measured width. -/
structure Otf where
  stem : String
  axesData : List (String × Option (List (String × Val)))
  width : Int
deriving DecidableEq, Repr

/-- A run of `widths-inspector-2.py` as observed from outside. -/
structure RunEnv where
  fontmakeExit : Int
  otfs : List Otf
deriving DecidableEq, Repr

/-- `if s.contains x then s else s ++ [x]` — Python `set.add` on the
insertion-ordered list model of a set. -/
def setInsert (s : List String) (x : String) : List String :=
  if s.contains x then s else s ++ [x]

/-- `all_axes.update(keys)` — Python `set.update`. -/
def setUnion (s : List String) (xs : List String) : List String :=
  xs.foldl setInsert s

/-- Insert into a sorted list of strings. -/
def insertSorted (x : String) : List String → List String
  | [] => [x]
  | y :: ys => if x ≤ y then x :: y :: ys else y :: insertSorted x ys

/-- Python `sorted` on the list-modelled set of axis names. -/
def sortStrings (l : List String) : List String :=
  l.foldr insertSorted []

/-- One iteration of the per-binary loop of `widths-inspector-2.py`
(lines 75–99) on the state `(results, all_axes)`.  `axes_data.get(stem, {})`
yields `None` when the stem collides with an axis-tag key, making
`instance_axes.keys()` raise `AttributeError` — modelled as `Except.error`
carrying the partial state that the enclosing `except` clause returns. -/
def processStep (text : String) (st : List ResultRow × List String) (otf : Otf) :
    Except (List ResultRow × List String) (List ResultRow × List String) :=
  match (otf.axesData.lookup otf.stem).getD (some []) with
  | none => Except.error st
  | some instance_axes =>
    let all_axes := setUnion st.2 (instance_axes.map (fun p => p.1))
    let row : ResultRow :=
      { instanceName := otf.stem
        axisCells := all_axes.map (fun axis => (axis, instance_axes.lookup axis))
        widthKey := text ++ " Width"
        width := otf.width }
    Except.ok (st.1 ++ [row], all_axes)

/-- `process_instances_with_harfbuzz` of `widths-inspector-2.py`
(lines 49–106): non-zero compiler exit or an empty binary directory yield no
rows; otherwise each binary contributes one row, any mid-loop exception
keeps the rows accumulated so far, and the axis-name set is sorted on
return. -/
def process_instances_with_harfbuzz2 (env : RunEnv) (text : String) :
    List ResultRow × List String :=
  if env.fontmakeExit ≠ 0 then ([], [])
  else if env.otfs.isEmpty then ([], [])
  else
    match env.otfs.foldlM (processStep text) ([], []) with
    | Except.ok (rows, axes) => (rows, sortStrings axes)
    | Except.error (rows, axes) => (rows, sortStrings axes)

/-! ## Concrete inputs used by the witnesses and counterexamples -/

/-- Bounds dict `{'Wdth-e': (1, 100)}` as a function. -/
def c1Bounds : String → Val × Val := fun a => if a = "Wdth-e" then (1, 100) else (0, 0)

/-- A master source whose UFO directory exists. -/
def c1Source : SourceDescriptor :=
  { filename := "A.ufo", name := "A", familyName := "Crispy", styleName := "Regular", location := [("Weight", 400)] }

/-- The source list of the duplication witness. -/
def c1Sources : List SourceDescriptor := [c1Source]

/-- A file system on which the witness source's master directory exists. -/
def c1FS : FS := ["master_ufo/A.ufo"]

/-- An axis already present in the document. -/
def c2Axis : AxisDescriptor :=
  { name := "Weight", tag := "wght", minimum := 100, maximum := 900, default := 700 }

/-- A source defining a coordinate for the `Weight` axis. -/
def c2Source : SourceDescriptor :=
  { filename := "A.ufo", name := "A", familyName := "Crispy", styleName := "Regular", location := [("Weight", 400)] }

/-- Bounds dict `{'Wdth-e': (0, 2)}` as a function. -/
def c3Bounds : String → Val × Val := fun a => if a = "Wdth-e" then (0, 2) else (0, 0)

/-- A CSV row whose `Instance` cell is empty: its style key is `""`. -/
def c3EmptyStyleRow : CSVRow := { instanceName := "", cells := [("Wdth-e", some 5)] }

/-- An instance whose style name is the empty string — falsy in Python. -/
def c3EmptyStyleInst : InstanceDescriptor := { styleName := some "", location := some [] }

/-- An instance whose style name matches a CSV row. -/
def c3MatchInst : InstanceDescriptor := { styleName := some "Bold", location := some [] }

/-- A style lookup with a value for `Wdth-e` under the key `Bold`. -/
def c3Lookup : List (String × List (String × Val)) := [("Bold", [("Wdth-e", 7)])]

/-- Rows in which the `Wght-e` column is empty on every row. -/
def c5EmptyColRows : List CSVRow := [{ instanceName := "Bold", cells := [("Wght-e", none)] }]

/-- Rows in which one row has a `Wght-e` value and another leaves it empty. -/
def c5Rows : List CSVRow :=
  [{ instanceName := "Bold", cells := [("Wght-e", some 100)] },
   { instanceName := "Light", cells := [("Wght-e", none)] }]

/-- A run in which the compiler subprocess exits with status 1. -/
def c7Env : RunEnv := { fontmakeExit := 1, otfs := [] }

/-- A source whose referenced master directory is missing. -/
def c8Missing : SourceDescriptor :=
  { filename := "B.ufo", name := "B", familyName := "Crispy", styleName := "Bold", location := [] }

/-- An empty starting state for the duplication loop. -/
def c8State : DupState := { fs := [], processed := [], new_sources := [], warnings := [] }

/-- A produced binary from which no axis data can be extracted. -/
def c9NoAxesOtf : Otf := { stem := "A", axesData := [], width := 10 }

/-- A produced binary reporting the axis `wght`. -/
def c9AxisOtf : Otf := { stem := "B", axesData := [("B", some [("wght", 400)])], width := 20 }

/-- A run whose first binary has no axis data and whose second reports `wght`. -/
def c9Env : RunEnv := { fontmakeExit := 0, otfs := [c9NoAxesOtf, c9AxisOtf] }

/-- The row the loop builds for `c9AxisOtf` when it is processed first. -/
def c9PreRow : ResultRow :=
  { instanceName := "B", axisCells := [("wght", some 400)], widthKey := "H Width", width := 20 }

/-- A loop state on which a stale duplicate directory exists at the
destination path for `c10Source` while the original is missing. -/
def c10State : DupState :=
  { fs := ["master_ufo/A-Wdth-eMax.ufo"], processed := [], new_sources := [], warnings := [] }

/-- The source whose master directory is missing in the `C10` scenario. -/
def c10Source : SourceDescriptor :=
  { filename := "A.ufo", name := "A", familyName := "Crispy", styleName := "Regular", location := [] }

/-! ## Dictionary lemmas -/

/-- Updating an existing key in place stores the new value. -/
theorem lookup_map_insert_self {α β : Type} [BEq α] [LawfulBEq α] (k : α) (v : β) :
    ∀ d : List (α × β), d.any (fun p => p.1 == k) = true →
      (d.map (fun p => if p.1 == k then (k, v) else p)).lookup k = some v := by
  intro d
  induction d with
  | nil => intro h; simp at h
  | cons p t ih =>
    intro h
    obtain ⟨pk, pv⟩ := p
    cases hpk : (pk == k) with
    | true =>
      simp [List.map_cons, hpk, List.lookup_cons]
    | false =>
      have ht : t.any (fun p => p.1 == k) = true := by
        simpa [List.any_cons, hpk] using h
      have hk : (k == pk) = false := by
        rw [beq_eq_false_iff_ne] at hpk ⊢
        exact fun e => hpk e.symm
      simp [List.map_cons, hpk, List.lookup_cons, hk, ih ht]

/-- Appending a fresh key at the end makes it found by lookup. -/
theorem lookup_append_insert_self {α β : Type} [BEq α] [LawfulBEq α] (k : α) (v : β) :
    ∀ d : List (α × β), (d ++ [(k, v)]).lookup k = some v ∨ (d.lookup k).isSome = true := by
  intro d
  induction d with
  | nil => exact Or.inl (by simp [List.lookup_cons])
  | cons p t ih =>
    obtain ⟨pk, pv⟩ := p
    cases hpk : (k == pk) with
    | true => exact Or.inr (by simp [List.lookup_cons, hpk])
    | false =>
      rcases ih with h | h
      · exact Or.inl (by simp [List.cons_append, List.lookup_cons, hpk, h])
      · exact Or.inr (by simp [List.lookup_cons, hpk, h])

/-- In-place update of key `k` leaves every other key's lookup unchanged. -/
theorem lookup_map_insert_ne {α β : Type} [BEq α] [LawfulBEq α] (k k' : α) (v : β) (hne : k' ≠ k) :
    ∀ d : List (α × β),
      (d.map (fun p => if p.1 == k then (k, v) else p)).lookup k' = d.lookup k' := by
  intro d
  induction d with
  | nil => simp
  | cons p t ih =>
    obtain ⟨pk, pv⟩ := p
    cases hpk : (pk == k) with
    | true =>
      have hk : (k' == k) = false := beq_eq_false_iff_ne.mpr hne
      have hpk' : pk = k := eq_of_beq hpk
      have hk2 : (k' == pk) = false := by rw [hpk']; exact hk
      simp [List.map_cons, hpk, List.lookup_cons, hk, hk2, ih]
    | false =>
      have hhead : (if (pk == k) = true then (k, v) else (pk, pv)) = (pk, pv) := by
        simp [hpk]
      simp only [List.map_cons, hhead]
      cases hq : (k' == pk) with
      | true => simp [List.lookup_cons, hq]
      | false => simp [List.lookup_cons, hq, ih]

/-- Appending a fresh binding for `k` leaves every other key's lookup unchanged. -/
theorem lookup_append_insert_ne {α β : Type} [BEq α] [LawfulBEq α] (k k' : α) (v : β) (hne : k' ≠ k) :
    ∀ d : List (α × β), (d ++ [(k, v)]).lookup k' = d.lookup k' := by
  intro d
  induction d with
  | nil => simp [List.lookup_cons, beq_eq_false_iff_ne.mpr hne]
  | cons p t ih =>
    obtain ⟨pk, pv⟩ := p
    cases hq : (k' == pk) with
    | true => simp [List.cons_append, List.lookup_cons, hq]
    | false => simp [List.cons_append, List.lookup_cons, hq, ih]

/-- Dict assignment `d[k] = v` makes `d[k]` equal `v`. -/
theorem lookup_dictInsert_self {α β : Type} [BEq α] [LawfulBEq α]
    (d : List (α × β)) (k : α) (v : β) :
    (dictInsert d k v).lookup k = some v := by
  unfold dictInsert
  cases hany : d.any (fun p => p.1 == k) with
  | true => simpa [hany] using lookup_map_insert_self k v d hany
  | false =>
    simp only [hany, Bool.false_eq_true, if_false]
    rcases lookup_append_insert_self k v d with h | h
    · exact h
    · exfalso
      rw [Option.isSome_iff_exists] at h
      obtain ⟨w, hw⟩ := h
      have : ∃ p ∈ d, (p.1 == k) = true := by
        clear hany
        induction d with
        | nil => simp at hw
        | cons p t ih =>
          obtain ⟨pk, pv⟩ := p
          cases hq : (k == pk) with
          | true =>
            refine ⟨(pk, pv), List.mem_cons_self _ _, ?_⟩
            have : k = pk := eq_of_beq hq
            simp [this]
          | false =>
            rw [List.lookup_cons] at hw
            simp only [hq] at hw
            obtain ⟨q, hq1, hq2⟩ := ih hw
            exact ⟨q, List.mem_cons_of_mem _ hq1, hq2⟩
      obtain ⟨p, hp1, hp2⟩ := this
      rw [List.any_eq_false] at hany
      exact absurd hp2 (by simpa using hany p hp1)

/-- Dict assignment `d[k] = v` leaves every other key's lookup unchanged. -/
theorem lookup_dictInsert_ne {α β : Type} [BEq α] [LawfulBEq α]
    (d : List (α × β)) (k k' : α) (v : β) (hne : k' ≠ k) :
    (dictInsert d k v).lookup k' = d.lookup k' := by
  unfold dictInsert
  cases hany : d.any (fun p => p.1 == k) with
  | true => simpa [hany] using lookup_map_insert_ne k k' v hne d
  | false => simpa [hany] using lookup_append_insert_ne k k' v hne d

/-- A left fold of dict assignments with a per-key value function: every key
in the list ends up at its value, every other key is untouched.  This is the
shape of both location-update loops and of the instance-coordinate loop. -/
theorem lookup_foldl_dictInsert {α β : Type} [BEq α] [LawfulBEq α] [DecidableEq α] (f : α → β) :
    ∀ (keys : List α) (l : List (α × β)) (x : α),
      (keys.foldl (fun acc a => dictInsert acc a (f a)) l).lookup x
        = if x ∈ keys then some (f x) else l.lookup x := by
  intro keys
  induction keys with
  | nil => intro l x; simp
  | cons a as ih =>
    intro l x
    simp only [List.foldl_cons]
    rw [ih]
    by_cases hx : x ∈ as
    · simp [hx]
    · by_cases hxa : x = a
      · subst hxa
        simp [hx, lookup_dictInsert_self]
      · simp [hx, hxa, lookup_dictInsert_ne _ _ _ _ hxa]

/-! ## Minimum/maximum fold lemmas -/

/-- The min fold yields `none` only when it saw no value at all. -/
theorem minFold_none {α : Type} (f : α → Option Val) :
    ∀ (l : List α) (acc : Option Val), l.foldl (minFoldStep f) acc = none →
      acc = none ∧ ∀ x ∈ l, f x = none := by
  intro l
  induction l with
  | nil =>
    intro acc h
    simp only [List.foldl_nil] at h
    exact ⟨h, by simp⟩
  | cons y ys ih =>
    intro acc h
    simp only [List.foldl_cons] at h
    obtain ⟨hstep, hall⟩ := ih _ h
    unfold minFoldStep at hstep
    cases hf : f y with
    | some v => rw [hf] at hstep; simp at hstep
    | none =>
      rw [hf] at hstep
      refine ⟨hstep, ?_⟩
      intro x hx
      rcases List.mem_cons.mp hx with rfl | hx'
      · exact hf
      · exact hall x hx'

/-- What the min fold computes: the result is attained (or is the starting
accumulator) and bounds every seen value and the accumulator from below. -/
theorem minFold_spec {α : Type} (f : α → Option Val) :
    ∀ (l : List α) (acc : Option Val) (m : Val), l.foldl (minFoldStep f) acc = some m →
      ((∃ x ∈ l, f x = some m) ∨ acc = some m)
      ∧ (∀ x ∈ l, ∀ v, f x = some v → m ≤ v)
      ∧ (∀ a, acc = some a → m ≤ a) := by
  intro l
  induction l with
  | nil =>
    intro acc m h
    simp only [List.foldl_nil] at h
    refine ⟨Or.inr h, by simp, ?_⟩
    intro a ha
    rw [h] at ha
    cases ha
    exact le_refl m
  | cons y ys ih =>
    intro acc m h
    simp only [List.foldl_cons] at h
    obtain ⟨hattain, hbound, hacc⟩ := ih _ _ h
    cases hf : f y with
    | none =>
      have hstep : minFoldStep f acc y = acc := by
        unfold minFoldStep; rw [hf]
      rw [hstep] at hattain hacc
      refine ⟨?_, ?_, hacc⟩
      · rcases hattain with ⟨x, hx, hfx⟩ | h'
        · exact Or.inl ⟨x, List.mem_cons_of_mem _ hx, hfx⟩
        · exact Or.inr h'
      · intro x hx v hfx
        rcases List.mem_cons.mp hx with rfl | hx'
        · rw [hf] at hfx; cases hfx
        · exact hbound x hx' v hfx
    | some v =>
      cases acc with
      | none =>
        have hstep : minFoldStep f none y = some v := by
          unfold minFoldStep; rw [hf]
        rw [hstep] at hattain hacc
        have hmv : m ≤ v := hacc v rfl
        refine ⟨?_, ?_, by intro a ha; cases ha⟩
        · rcases hattain with ⟨x, hx, hfx⟩ | h'
          · exact Or.inl ⟨x, List.mem_cons_of_mem _ hx, hfx⟩
          · exact Or.inl ⟨y, List.mem_cons_self _ _, by rw [hf]; injection h' with h''; rw [h'']⟩
        · intro x hx w hfx
          rcases List.mem_cons.mp hx with rfl | hx'
          · rw [hf] at hfx
            injection hfx with hw
            rw [← hw]
            exact hmv
          · exact hbound x hx' w hfx
      | some a =>
        have hstep : minFoldStep f (some a) y = some (min a v) := by
          unfold minFoldStep; rw [hf]
        rw [hstep] at hattain hacc
        have hmav : m ≤ min a v := hacc (min a v) rfl
        refine ⟨?_, ?_, ?_⟩
        · rcases hattain with ⟨x, hx, hfx⟩ | h'
          · exact Or.inl ⟨x, List.mem_cons_of_mem _ hx, hfx⟩
          · injection h' with h''
            rcases min_choice a v with hc | hc
            · exact Or.inr (congrArg some (hc.symm.trans h''))
            · exact Or.inl ⟨y, List.mem_cons_self _ _, by rw [hf]; exact congrArg some (hc.symm.trans h'')⟩
        · intro x hx w hfx
          rcases List.mem_cons.mp hx with rfl | hx'
          · rw [hf] at hfx
            injection hfx with hw
            rw [← hw]
            exact le_trans hmav (min_le_right a v)
          · exact hbound x hx' w hfx
        · intro b hb
          injection hb with hb'
          rw [← hb']
          exact le_trans hmav (min_le_left a v)

/-- The max fold yields `none` only when it saw no value at all. -/
theorem maxFold_none {α : Type} (f : α → Option Val) :
    ∀ (l : List α) (acc : Option Val), l.foldl (maxFoldStep f) acc = none →
      acc = none ∧ ∀ x ∈ l, f x = none := by
  intro l
  induction l with
  | nil =>
    intro acc h
    simp only [List.foldl_nil] at h
    exact ⟨h, by simp⟩
  | cons y ys ih =>
    intro acc h
    simp only [List.foldl_cons] at h
    obtain ⟨hstep, hall⟩ := ih _ h
    unfold maxFoldStep at hstep
    cases hf : f y with
    | some v => rw [hf] at hstep; simp at hstep
    | none =>
      rw [hf] at hstep
      refine ⟨hstep, ?_⟩
      intro x hx
      rcases List.mem_cons.mp hx with rfl | hx'
      · exact hf
      · exact hall x hx'

/-- What the max fold computes, dually to `minFold_spec`. -/
theorem maxFold_spec {α : Type} (f : α → Option Val) :
    ∀ (l : List α) (acc : Option Val) (m : Val), l.foldl (maxFoldStep f) acc = some m →
      ((∃ x ∈ l, f x = some m) ∨ acc = some m)
      ∧ (∀ x ∈ l, ∀ v, f x = some v → v ≤ m)
      ∧ (∀ a, acc = some a → a ≤ m) := by
  intro l
  induction l with
  | nil =>
    intro acc m h
    simp only [List.foldl_nil] at h
    refine ⟨Or.inr h, by simp, ?_⟩
    intro a ha
    rw [h] at ha
    cases ha
    exact le_refl m
  | cons y ys ih =>
    intro acc m h
    simp only [List.foldl_cons] at h
    obtain ⟨hattain, hbound, hacc⟩ := ih _ _ h
    cases hf : f y with
    | none =>
      have hstep : maxFoldStep f acc y = acc := by
        unfold maxFoldStep; rw [hf]
      rw [hstep] at hattain hacc
      refine ⟨?_, ?_, hacc⟩
      · rcases hattain with ⟨x, hx, hfx⟩ | h'
        · exact Or.inl ⟨x, List.mem_cons_of_mem _ hx, hfx⟩
        · exact Or.inr h'
      · intro x hx v hfx
        rcases List.mem_cons.mp hx with rfl | hx'
        · rw [hf] at hfx; cases hfx
        · exact hbound x hx' v hfx
    | some v =>
      cases acc with
      | none =>
        have hstep : maxFoldStep f none y = some v := by
          unfold maxFoldStep; rw [hf]
        rw [hstep] at hattain hacc
        have hmv : v ≤ m := hacc v rfl
        refine ⟨?_, ?_, by intro a ha; cases ha⟩
        · rcases hattain with ⟨x, hx, hfx⟩ | h'
          · exact Or.inl ⟨x, List.mem_cons_of_mem _ hx, hfx⟩
          · exact Or.inl ⟨y, List.mem_cons_self _ _, by rw [hf]; injection h' with h''; rw [h'']⟩
        · intro x hx w hfx
          rcases List.mem_cons.mp hx with rfl | hx'
          · rw [hf] at hfx
            injection hfx with hw
            rw [← hw]
            exact hmv
          · exact hbound x hx' w hfx
      | some a =>
        have hstep : maxFoldStep f (some a) y = some (max a v) := by
          unfold maxFoldStep; rw [hf]
        rw [hstep] at hattain hacc
        have hmav : max a v ≤ m := hacc (max a v) rfl
        refine ⟨?_, ?_, ?_⟩
        · rcases hattain with ⟨x, hx, hfx⟩ | h'
          · exact Or.inl ⟨x, List.mem_cons_of_mem _ hx, hfx⟩
          · injection h' with h''
            rcases max_choice a v with hc | hc
            · exact Or.inr (congrArg some (hc.symm.trans h''))
            · exact Or.inl ⟨y, List.mem_cons_self _ _, by rw [hf]; exact congrArg some (hc.symm.trans h'')⟩
        · intro x hx w hfx
          rcases List.mem_cons.mp hx with rfl | hx'
          · rw [hf] at hfx
            injection hfx with hw
            rw [← hw]
            exact le_trans (le_max_right a v) hmav
          · exact hbound x hx' w hfx
        · intro b hb
          injection hb with hb'
          rw [← hb']
          exact le_trans (le_max_left a v) hmav

/-! ## C6 — extension-axis discovery from the header -/

/-- Claim C6: for a CSV header with distinct column names, the discovered
extension-axis list contains exactly the columns whose name contains the
marker `-e`, each exactly once (`Nodup`), in header order (`Sublist`). -/
theorem c6_e_axis_discovery (fieldnames : List String) (hnd : fieldnames.Nodup) :
    (∀ a, a ∈ eAxesOf fieldnames ↔ a ∈ fieldnames ∧ containsE a = true)
  ∧ (eAxesOf fieldnames).Nodup
  ∧ (eAxesOf fieldnames).Sublist fieldnames := by
  refine ⟨fun a => ?_, hnd.filter _, List.filter_sublist _⟩
  simp [eAxesOf, List.mem_filter]

/-- Witness for C6 on the header `Instance, Wght-e, Width`. -/
theorem c6_e_axis_discovery_witness :
    ("Wght-e" ∈ eAxesOf ["Instance", "Wght-e", "Width"]
      ↔ "Wght-e" ∈ ["Instance", "Wght-e", "Width"] ∧ containsE "Wght-e" = true)
  ∧ (eAxesOf ["Instance", "Wght-e", "Width"]).Nodup
  ∧ (eAxesOf ["Instance", "Wght-e", "Width"]).Sublist ["Instance", "Wght-e", "Width"] :=
  ⟨(c6_e_axis_discovery ["Instance", "Wght-e", "Width"] (by decide)).1 "Wght-e",
   (c6_e_axis_discovery ["Instance", "Wght-e", "Width"] (by decide)).2.1,
   (c6_e_axis_discovery ["Instance", "Wght-e", "Width"] (by decide)).2.2⟩

/-! ## C5 — per-axis min/max discovery -/

/-- Counterexample to C5 as stated: on a CSV whose `Wght-e` column is empty
on every row, `min([])` raises `ValueError` and discovery fails, although the
header is valid and `Wght-e` is a discovered extension axis; so "rows with no
value contribute no error" does not hold universally. -/
theorem c5_counterexample :
    get_e_axes_and_lookup { fieldnames := some ["Instance", "Wght-e"], rows := c5EmptyColRows }
      = Except.error "ValueError: min() arg is an empty sequence"
  ∧ eAxesOf ["Instance", "Wght-e"] = ["Wght-e"]
  ∧ cellValue { instanceName := "Bold", cells := [("Wght-e", none)] } "Wght-e" = none
  ∧ axisMinmax c5EmptyColRows "Wght-e" = none := by
  exact ⟨rfl, rfl, rfl, rfl⟩

/-- Claim C5 (amended): provided at least one row has a value in the axis's
column, discovery succeeds, the minimum is at most the maximum, and both are
values appearing in some row; rows with an empty cell are skipped. -/
theorem c5_minmax_bounds (rows : List CSVRow) (axis : String)
    (h : axisValues rows axis ≠ []) :
    (axisMinmax rows axis).isSome = true
  ∧ ∀ m M, axisMinmax rows axis = some (m, M) →
      m ≤ M
      ∧ (∃ r ∈ rows, cellValue r axis = some m)
      ∧ (∃ r ∈ rows, cellValue r axis = some M) := by
  have hminS : ∃ m, listMin (axisValues rows axis) = some m := by
    cases hm : listMin (axisValues rows axis) with
    | some m => exact ⟨m, rfl⟩
    | none =>
      exfalso
      have hm' : (axisValues rows axis).foldl (minFoldStep some) none = none := by
        simpa [listMin, minFoldBy] using hm
      obtain ⟨-, hall⟩ := minFold_none some _ _ hm'
      cases hv : axisValues rows axis with
      | nil => exact h hv
      | cons v vs =>
        have hv' : v ∈ axisValues rows axis := by
          rw [hv]; exact List.mem_cons_self _ _
        exact Option.noConfusion (hall v hv')
  have hmaxS : ∃ M, listMax (axisValues rows axis) = some M := by
    cases hM : listMax (axisValues rows axis) with
    | some M => exact ⟨M, rfl⟩
    | none =>
      exfalso
      have hM' : (axisValues rows axis).foldl (maxFoldStep some) none = none := by
        simpa [listMax, maxFoldBy] using hM
      obtain ⟨-, hall⟩ := maxFold_none some _ _ hM'
      cases hv : axisValues rows axis with
      | nil => exact h hv
      | cons v vs =>
        have hv' : v ∈ axisValues rows axis := by
          rw [hv]; exact List.mem_cons_self _ _
        exact Option.noConfusion (hall v hv')
  obtain ⟨m0, hm0⟩ := hminS
  obtain ⟨M0, hM0⟩ := hmaxS
  have hmm : axisMinmax rows axis = some (m0, M0) := by
    simp only [axisMinmax, hm0, hM0]
  have hminfold : (axisValues rows axis).foldl (minFoldStep some) none = some m0 := by
    simpa [listMin, minFoldBy] using hm0
  have hmaxfold : (axisValues rows axis).foldl (maxFoldStep some) none = some M0 := by
    simpa [listMax, maxFoldBy] using hM0
  obtain ⟨hattain, hbound, -⟩ := minFold_spec some _ _ _ hminfold
  obtain ⟨hattainM, -, -⟩ := maxFold_spec some _ _ _ hmaxfold
  have hmemm : m0 ∈ axisValues rows axis := by
    rcases hattain with ⟨x, hx, hfx⟩ | h'
    · exact (Option.some.inj hfx) ▸ hx
    · cases h'
  have hmemM : M0 ∈ axisValues rows axis := by
    rcases hattainM with ⟨x, hx, hfx⟩ | h'
    · exact (Option.some.inj hfx) ▸ hx
    · cases h'
  refine ⟨by rw [hmm]; rfl, ?_⟩
  intro m M hEq
  rw [hmm] at hEq
  have hpair := Option.some.inj hEq
  obtain ⟨rfl, rfl⟩ : m0 = m ∧ M0 = M :=
    ⟨congrArg Prod.fst hpair, congrArg Prod.snd hpair⟩
  refine ⟨hbound M0 hmemM M0 rfl, ?_, ?_⟩
  · obtain ⟨r, hr, hcell⟩ := List.mem_filterMap.mp (by simpa [axisValues] using hmemm)
    exact ⟨r, hr, hcell⟩
  · obtain ⟨r, hr, hcell⟩ := List.mem_filterMap.mp (by simpa [axisValues] using hmemM)
    exact ⟨r, hr, hcell⟩

/-- Witness for the amended C5 on a column with one value and one empty cell. -/
theorem c5_minmax_bounds_witness :
    (axisMinmax c5Rows "Wght-e").isSome = true :=
  (c5_minmax_bounds c5Rows "Wght-e" (by decide)).1

/-! ## C2 — axis defaults normalized to the minimum over sources -/

/-- `min_values[axis]` is some value, attained by a source and below every
source's coordinate, as soon as one source has the axis in its location. -/
theorem sourceMin_spec (sources : List SourceDescriptor) (axis : String)
    (h : ∃ s ∈ sources, (s.location.lookup axis).isSome = true) :
    ∃ m, sourceMin sources axis = some m
      ∧ (∃ s ∈ sources, s.location.lookup axis = some m)
      ∧ (∀ s ∈ sources, ∀ v, s.location.lookup axis = some v → m ≤ v) := by
  cases hm : sourceMin sources axis with
  | none =>
    exfalso
    obtain ⟨s, hs, hsome⟩ := h
    have hm' : sources.foldl (minFoldStep (fun s => s.location.lookup axis)) none = none := by
      simpa [sourceMin, minFoldBy] using hm
    obtain ⟨-, hall⟩ := minFold_none _ _ _ hm'
    rw [hall s hs] at hsome
    simp at hsome
  | some m =>
    have hm' : sources.foldl (minFoldStep (fun s => s.location.lookup axis)) none = some m := by
      simpa [sourceMin, minFoldBy] using hm
    obtain ⟨hattain, hbound, -⟩ := minFold_spec _ _ _ _ hm'
    refine ⟨m, rfl, ?_, hbound⟩
    rcases hattain with ⟨s, hs, hfs⟩ | h'
    · exact ⟨s, hs, hfs⟩
    · cases h'

/-- Claim C2: when every document axis has a coordinate on at least one
source, the default attribute of every serialized axis after the
normalization pass equals the minimum coordinate among all sources for that
axis (it is attained by a source and bounds every source's value below). -/
theorem c2_axis_defaults (docAxes : List AxisDescriptor) (sources : List SourceDescriptor)
    (h : ∀ a ∈ docAxes, ∃ s ∈ sources, (s.location.lookup a.name).isSome = true) :
    ∀ ax ∈ set_axis_defaults_to_minimums docAxes sources (serializeAxes docAxes),
      ax.default = sourceMin sources ax.name
      ∧ ∃ m, ax.default = some m
          ∧ (∃ s ∈ sources, s.location.lookup ax.name = some m)
          ∧ (∀ s ∈ sources, ∀ v, s.location.lookup ax.name = some v → m ≤ v) := by
  intro ax hax
  unfold set_axis_defaults_to_minimums at hax
  rw [List.mem_map] at hax
  obtain ⟨xa, hxa, rfl⟩ := hax
  unfold serializeAxes at hxa
  rw [List.mem_map] at hxa
  obtain ⟨a, ha, rfl⟩ := hxa
  have hmem : a.name ∈ docAxes.map (fun b => b.name) := List.mem_map_of_mem _ ha
  have hcontains : (docAxes.map (fun b => b.name)).contains a.name = true := by
    simpa [List.contains, List.elem_iff] using hmem
  simp only [hcontains, if_true]
  obtain ⟨m, hm, hatt, hbound⟩ := sourceMin_spec sources a.name (h a ha)
  exact ⟨trivial, m, hm, hatt, hbound⟩

/-- Witness for C2: one axis `Weight` with default 700 in the document and a
single source at 400 — the serialized default becomes the source minimum. -/
theorem c2_axis_defaults_witness :
    ({ name := "Weight", tag := "wght", minimum := 100, maximum := 900, default := some 400 } : XmlAxis).default
      = sourceMin [c2Source] "Weight" :=
  (c2_axis_defaults [c2Axis] [c2Source] (by decide) _ (by decide)).1

/-! ## C4 — axis merge -/

/-- `l.contains a` agrees with membership. -/
theorem contains_iff_mem {α : Type} [BEq α] [LawfulBEq α] {l : List α} {a : α} :
    l.contains a = true ↔ a ∈ l := by
  simp [List.contains, List.elem_iff]

/-- The append-if-absent loop of `ensure_e_axes` equals appending the block
of fresh axes built from the discovered names not already present. -/
theorem ensure_foldl_eq (bounds : String → Val × Val) (existing : List String) :
    ∀ (e_axes : List String) (acc : List AxisDescriptor),
      e_axes.foldl (fun acc axis => if existing.contains axis then acc else acc ++ [mkAxis bounds axis]) acc
        = acc ++ (e_axes.filter (fun a => !(existing.contains a))).map (mkAxis bounds) := by
  intro e_axes
  induction e_axes with
  | nil => intro acc; simp
  | cons a as ih =>
    intro acc
    simp only [List.foldl_cons, List.filter_cons]
    cases hc : existing.contains a with
    | true =>
      rw [if_pos rfl, ih, if_neg (by simp)]
    | false =>
      rw [if_neg (by simp), ih, if_pos (by simp), List.map_cons, List.append_assoc]
      rfl

/-- Closed form of `ensure_e_axes`. -/
theorem ensure_e_axes_eq (axes : List AxisDescriptor) (e_axes : List String)
    (bounds : String → Val × Val) :
    ensure_e_axes axes e_axes bounds
      = axes ++ (e_axes.filter (fun a => !((axes.map (fun b => b.name)).contains a))).map (mkAxis bounds) :=
  ensure_foldl_eq bounds _ e_axes axes

/-- Filtering a duplicate-free list by equality with a member leaves exactly
that member. -/
theorem filter_beq_of_nodup : ∀ {l : List String} {a : String}, l.Nodup → a ∈ l →
    l.filter (fun b => b == a) = [a] := by
  intro l
  induction l with
  | nil => intro a _ ha; cases ha
  | cons x xs ih =>
    intro a hnd ha
    rcases List.mem_cons.mp ha with heq | hxs
    · subst heq
      have hx : a ∉ xs := (List.nodup_cons.mp hnd).1
      have hnil : xs.filter (fun b => b == a) = [] := by
        rw [List.filter_eq_nil_iff]
        intro b hb
        simp only [beq_iff_eq]
        exact fun e => hx (e ▸ hb)
      rw [List.filter_cons]
      simp [hnil]
    · have hxa : x ≠ a := fun e => (List.nodup_cons.mp hnd).1 (e ▸ hxs)
      rw [List.filter_cons]
      simp only [beq_eq_false_iff_ne.mpr hxa, Bool.false_eq_true, if_false]
      exact ih (List.nodup_cons.mp hnd).2 hxs

/-- Claim C4: after the axis merge, the pre-existing axes are preserved
unchanged as a prefix; every discovered axis not already present appears
exactly once, with the discovered bounds, the four-character tag, and the
minimum as default; and a second invocation on the result changes nothing. -/
theorem c4_ensure_e_axes (axes : List AxisDescriptor) (e_axes : List String)
    (bounds : String → Val × Val) (hnd : e_axes.Nodup) :
    (ensure_e_axes axes e_axes bounds).take axes.length = axes
  ∧ (∀ a ∈ e_axes, a ∉ axes.map (fun b => b.name) →
      (ensure_e_axes axes e_axes bounds).filter (fun d => d.name == a) = [mkAxis bounds a])
  ∧ ensure_e_axes (ensure_e_axes axes e_axes bounds) e_axes bounds = ensure_e_axes axes e_axes bounds := by
  refine ⟨?_, ?_, ?_⟩
  · rw [ensure_e_axes_eq]
    exact List.take_left axes _
  · intro a ha hnotin
    rw [ensure_e_axes_eq, List.filter_append]
    have haxes : axes.filter (fun d => d.name == a) = [] := by
      rw [List.filter_eq_nil_iff]
      intro d hd
      simp only [beq_iff_eq]
      intro e
      exact hnotin (e ▸ List.mem_map_of_mem _ hd)
    have hpred : ((fun d : AxisDescriptor => d.name == a) ∘ mkAxis bounds) = (fun b : String => b == a) := rfl
    rw [haxes, List.filter_map, hpred, List.nil_append]
    have hcontains : (axes.map (fun b => b.name)).contains a = false := by
      cases hc : (axes.map (fun b => b.name)).contains a with
      | false => rfl
      | true => exact absurd (contains_iff_mem.mp hc) hnotin
    have hmemf : a ∈ e_axes.filter (fun x => !((axes.map (fun b => b.name)).contains x)) := by
      rw [List.mem_filter]
      exact ⟨ha, by rw [hcontains]; rfl⟩
    rw [filter_beq_of_nodup (hnd.filter _) hmemf]
    rfl
  · rw [ensure_e_axes_eq axes e_axes bounds, ensure_e_axes_eq]
    have hnil : e_axes.filter
        (fun a => !(((axes ++ (e_axes.filter (fun x => !((axes.map (fun b => b.name)).contains x))).map (mkAxis bounds)).map (fun b => b.name)).contains a)) = [] := by
      rw [List.filter_eq_nil_iff]
      intro a ha hcontra
      rw [Bool.not_eq_true'] at hcontra
      have hmem : a ∈ (axes ++ (e_axes.filter (fun x => !((axes.map (fun b => b.name)).contains x))).map (mkAxis bounds)).map (fun b => b.name) := by
        rw [List.map_append, List.mem_append]
        cases hc : (axes.map (fun b => b.name)).contains a with
        | true => exact Or.inl (contains_iff_mem.mp hc)
        | false =>
          refine Or.inr ?_
          rw [List.map_map]
          rw [List.mem_map]
          refine ⟨a, ?_, rfl⟩
          rw [List.mem_filter]
          exact ⟨ha, by rw [hc]; rfl⟩
      rw [← contains_iff_mem] at hmem
      rw [hmem] at hcontra
      cases hcontra
    rw [hnil]
    simp

/-- Witness for C4 on one existing `Weight` axis and one fresh `Wdth-e` axis. -/
theorem c4_ensure_e_axes_witness :
    (ensure_e_axes [c2Axis] ["Wdth-e"] c1Bounds).take 1 = [c2Axis]
  ∧ (ensure_e_axes [c2Axis] ["Wdth-e"] c1Bounds).filter (fun d => d.name == "Wdth-e") = [mkAxis c1Bounds "Wdth-e"]
  ∧ ensure_e_axes (ensure_e_axes [c2Axis] ["Wdth-e"] c1Bounds) ["Wdth-e"] c1Bounds = ensure_e_axes [c2Axis] ["Wdth-e"] c1Bounds :=
  ⟨(c4_ensure_e_axes [c2Axis] ["Wdth-e"] c1Bounds (by decide)).1,
   (c4_ensure_e_axes [c2Axis] ["Wdth-e"] c1Bounds (by decide)).2.1 "Wdth-e" (by decide) (by decide),
   (c4_ensure_e_axes [c2Axis] ["Wdth-e"] c1Bounds (by decide)).2.2⟩

/-! ## C7 — non-zero compiler exit yields an empty result set -/

/-- Claim C7: in both width-inspector variants, a non-zero compiler exit
status makes the processing function return an empty result list — the
`CalledProcessError` is caught before any row is built, and no exception
escapes (the functions are total). -/
theorem c7_nonzero_exit_empty (fontmakeExit : Int) (otfs1 : List Otf1) (env : RunEnv)
    (text1 text2 : String) (h1 : fontmakeExit ≠ 0) (h2 : env.fontmakeExit ≠ 0) :
    process_instances_with_harfbuzz1 fontmakeExit otfs1 text1 = []
  ∧ process_instances_with_harfbuzz2 env text2 = ([], []) := by
  constructor
  · unfold process_instances_with_harfbuzz1
    rw [if_pos h1]
  · unfold process_instances_with_harfbuzz2
    rw [if_pos h2]

/-- Witness for C7 with exit status 1. -/
theorem c7_nonzero_exit_empty_witness :
    process_instances_with_harfbuzz1 1 [] "H" = []
  ∧ process_instances_with_harfbuzz2 c7Env "H" = ([], []) :=
  c7_nonzero_exit_empty 1 [] c7Env "H" "H" (by decide) (by decide)

/-! ## C9 — placeholder row for an instance with no axis data -/

/-- Counterexample to C9 as stated: when the instance with no axis data is
processed before an instance that reports `wght`, its row has no `wght` cell
at all (the lookup yields `none`, not the placeholder cell `some none`),
although `wght` is reported across the run, as the returned sorted axis list
shows. -/
theorem c9_counterexample :
    (process_instances_with_harfbuzz2 c9Env "H").1.map (fun r => r.instanceName) = ["A", "B"]
  ∧ (process_instances_with_harfbuzz2 c9Env "H").2 = ["wght"]
  ∧ (process_instances_with_harfbuzz2 c9Env "H").1.map (fun r => r.axisCells.lookup "wght")
      = [none, some (some 400)] := by
  exact ⟨rfl, rfl, rfl⟩

/-- Claim C9 (amended): a produced binary with no extractable axis data gets
a row whose cell for every axis known at the time the row is built — the
axes reported by the binaries processed before it — is the placeholder
(`none`, rendered `"-"`); no error is raised. -/
theorem c9_no_axis_data_row (text : String) (pre : List Otf) (bad : Otf)
    (rs : List ResultRow) (axs : List String)
    (hpre : pre.foldlM (processStep text) (([] : List ResultRow), ([] : List String))
      = Except.ok (rs, axs))
    (hbad : (bad.axesData.lookup bad.stem).getD (some []) = some []) :
    (pre ++ [bad]).foldlM (processStep text) ([], []) =
      Except.ok (rs ++ [{ instanceName := bad.stem,
                          axisCells := axs.map (fun a => (a, none)),
                          widthKey := text ++ " Width",
                          width := bad.width }], axs) := by
  have hstep : processStep text (rs, axs) bad
      = Except.ok (rs ++ [{ instanceName := bad.stem,
                            axisCells := axs.map (fun a => (a, none)),
                            widthKey := text ++ " Width",
                            width := bad.width }], axs) := by
    unfold processStep
    rw [hbad]
    simp only [List.map_nil, setUnion, List.foldl_nil, List.lookup_nil]
  rw [List.foldlM_append, hpre]
  show Except.bind (processStep text (rs, axs) bad) pure = _
  rw [hstep]
  rfl

/-- Witness for the amended C9: the axis-reporting binary first, then the
binary with no axis data; its row carries the placeholder for `wght`. -/
theorem c9_no_axis_data_row_witness :
    ([c9AxisOtf] ++ [c9NoAxesOtf]).foldlM (processStep "H") ([], []) =
      Except.ok ([c9PreRow] ++ [{ instanceName := "A",
                                  axisCells := ["wght"].map (fun a => (a, none)),
                                  widthKey := "H" ++ " Width",
                                  width := 10 }], ["wght"]) :=
  c9_no_axis_data_row "H" [c9AxisOtf] c9NoAxesOtf [c9PreRow] ["wght"] rfl rfl

/-! ## C3 — instance coordinate assignment -/

/-- The instance-update loop leaves the style name unchanged and builds the
location by dict-inserting each extension axis's computed value. -/
theorem update_instance_location (e_axes : List String) (bounds : String → Val × Val)
    (lk : List (String × List (String × Val))) :
    ∀ inst : InstanceDescriptor,
      ((update_instance e_axes bounds lk inst).location.getD []) =
        e_axes.foldl (fun l axis => dictInsert l axis (instAxisValue lk bounds inst.styleName axis))
          (inst.location.getD [])
      ∧ (update_instance e_axes bounds lk inst).styleName = inst.styleName := by
  induction e_axes with
  | nil => intro inst; exact ⟨rfl, rfl⟩
  | cons a as ih =>
    intro inst
    have hstep : update_instance (a :: as) bounds lk inst
        = update_instance as bounds lk
            { inst with location := some (dictInsert (inst.location.getD []) a (instAxisValue lk bounds inst.styleName a)) } := rfl
    rw [hstep]
    obtain ⟨h1, h2⟩ := ih { inst with location := some (dictInsert (inst.location.getD []) a (instAxisValue lk bounds inst.styleName a)) }
    refine ⟨?_, h2⟩
    rw [h1]
    simp only [List.foldl_cons]
    rfl

/-- Claim C3 (amended): after the assignment pass, every extension axis of
every instance has a defined coordinate; it is the CSV value when the style
name is a non-empty string that matches a lookup key exactly and the matched
row has a value for the axis, and the midpoint `(min+max)/2` otherwise —
`instAxisValue` is exactly that case split. -/
theorem c3_instance_axis_assignment (e_axes : List String) (bounds : String → Val × Val)
    (lk : List (String × List (String × Val))) (inst : InstanceDescriptor)
    (axis : String) (ha : axis ∈ e_axes) :
    ((update_instance e_axes bounds lk inst).location.getD []).lookup axis
      = some (instAxisValue lk bounds inst.styleName axis) := by
  rw [(update_instance_location e_axes bounds lk inst).1]
  rw [lookup_foldl_dictInsert (instAxisValue lk bounds inst.styleName) e_axes _ axis]
  rw [if_pos ha]

/-- Witness for the amended C3: style name `Bold` matches the lookup. -/
theorem c3_instance_axis_assignment_witness :
    ((update_instance ["Wdth-e"] c3Bounds c3Lookup c3MatchInst).location.getD []).lookup "Wdth-e"
      = some (instAxisValue c3Lookup c3Bounds c3MatchInst.styleName "Wdth-e") :=
  c3_instance_axis_assignment ["Wdth-e"] c3Bounds c3Lookup c3MatchInst "Wdth-e" (by decide)

/-- Counterexample to C3 as stated: an instance whose style name is the empty
string matches the lookup key `""` by exact string equality, and the matched
row has a value (5) for the axis — yet the code assigns the midpoint 1,
because Python's truthiness test rejects the empty style name. -/
theorem c3_counterexample :
    build_style_lookup [c3EmptyStyleRow] = [("", [("Wdth-e", (5 : Val))])]
  ∧ c3EmptyStyleInst.styleName = some ""
  ∧ (build_style_lookup [c3EmptyStyleRow]).lookup "" = some [("Wdth-e", (5 : Val))]
  ∧ ((update_instance ["Wdth-e"] c3Bounds (build_style_lookup [c3EmptyStyleRow]) c3EmptyStyleInst).location.getD []).lookup "Wdth-e"
      = some (((0 : Val) + 2) / 2)
  ∧ ((0 : Val) + 2) / 2 ≠ 5 := by
  refine ⟨rfl, rfl, rfl, rfl, by norm_num⟩

/-! ## C1, C8, C10 — source duplication and its file-system effects -/

/-- A successful `splitDotLast` reassembles the input around its last dot. -/
theorem splitDotLast_eq : ∀ (cs b a : List Char), splitDotLast cs = some (b, a) →
    b ++ '.' :: a = cs := by
  intro cs
  induction cs with
  | nil => intro b a h; cases h
  | cons c cs ih =>
    intro b a h
    unfold splitDotLast at h
    cases hs : splitDotLast cs with
    | some p =>
      rw [hs] at h
      obtain ⟨b', a'⟩ := p
      have h' := Option.some.inj h
      have hb : c :: b' = b := congrArg Prod.fst h'
      have ha : a' = a := congrArg Prod.snd h'
      rw [← hb, ← ha]
      have := ih b' a' hs
      rw [List.cons_append, this]
    | none =>
      rw [hs] at h
      by_cases hc : (c == '.') = true
      · rw [if_pos hc] at h
        have h' := Option.some.inj h
        have hb : ([] : List Char) = b := congrArg Prod.fst h'
        have ha : cs = a := congrArg Prod.snd h'
        rw [← hb, ← ha, List.nil_append, eq_of_beq hc]
      · rw [if_neg hc] at h
        cases h

/-- `splitextChars` splits the name: the parts concatenate back to it. -/
theorem splitextChars_concat (cs : List Char) :
    (splitextChars cs).1 ++ (splitextChars cs).2 = cs := by
  unfold splitextChars
  cases hs : splitDotLast (cs.dropWhile (fun c => c == '.')) with
  | none => simp
  | some q =>
    obtain ⟨b, a⟩ := q
    show (cs.takeWhile (fun c => c == '.') ++ b) ++ ('.' :: a) = cs
    rw [List.append_assoc, splitDotLast_eq _ b a hs, List.takeWhile_append_dropWhile]

/-- `splitext` splits the name: root and extension concatenate back to it. -/
theorem splitext_concat (p : String) : (splitext p).1 ++ (splitext p).2 = p := by
  show String.mk (splitextChars p.toList).1 ++ String.mk (splitextChars p.toList).2 = p
  calc String.mk (splitextChars p.toList).1 ++ String.mk (splitextChars p.toList).2
      = String.mk ((splitextChars p.toList).1 ++ (splitextChars p.toList).2) := rfl
    _ = p := by rw [splitextChars_concat]; rfl

/-- Root plus extension lengths add up to the name's length. -/
theorem splitext_length (p : String) :
    (splitext p).1.length + (splitext p).2.length = p.length := by
  have h := splitext_concat p
  calc (splitext p).1.length + (splitext p).2.length
      = ((splitext p).1 ++ (splitext p).2).length := (String.length_append _ _).symm
    _ = p.length := by rw [h]

/-- The duplicate's destination path never equals the original's path: the
destination name is strictly longer (the suffix adds at least the dash). -/
theorem origUfoPath_ne_newUfoPath (e_axes : List String) (fn : String) :
    origUfoPath fn ≠ newUfoPath e_axes fn := by
  intro h
  have hlen := congrArg String.length h
  unfold origUfoPath newUfoPath pathJoin newUfoName UFO_SOURCE_DIR UFO_OUTPUT_DIR at hlen
  simp only [String.length_append] at hlen
  have hsplit := splitext_length (basename fn)
  have hdash : ("-" : String).length = 1 := rfl
  omega

/-- `fsExists` agrees with membership in the path set. -/
theorem fsExists_iff {fs : FS} {p : String} : fsExists fs p = true ↔ p ∈ fs := by
  unfold fsExists
  exact contains_iff_mem

/-- A path different from the deleted one survives the conditional `rmtree`. -/
theorem mem_fs1_of_ne (fs : FS) (p q : String) (hne : p ≠ q) (h : p ∈ fs) :
    p ∈ (if fsExists fs q then rmtree fs q else fs) := by
  by_cases hq : fsExists fs q = true
  · rw [if_pos hq]
    unfold rmtree
    rw [List.mem_filter]
    refine ⟨h, ?_⟩
    rw [beq_eq_false_iff_ne.mpr hne]
    rfl
  · rw [if_neg hq]
    exact h

/-- The non-skip branch of `dupStep`, taken when the original's master
directory exists after the conditional deletion of the destination. -/
theorem dupStep_ok (e_axes : List String) (bounds : String → Val × Val)
    (st : DupState) (s : SourceDescriptor)
    (h : fsExists (if fsExists st.fs (newUfoPath e_axes s.filename) then rmtree st.fs (newUfoPath e_axes s.filename) else st.fs) (origUfoPath s.filename) = true) :
    dupStep e_axes bounds st s =
      { fs := copytree (if fsExists st.fs (newUfoPath e_axes s.filename) then rmtree st.fs (newUfoPath e_axes s.filename) else st.fs) (newUfoPath e_axes s.filename)
        processed := st.processed ++ [updateSourceMin e_axes bounds s]
        new_sources := st.new_sources ++ [dupSource e_axes bounds (updateSourceMin e_axes bounds s)]
        warnings := st.warnings } := by
  simp only [dupStep, h, if_true]

/-- The skip branch of `dupStep`, taken when the original's master directory
is missing after the conditional deletion of the destination. -/
theorem dupStep_skip (e_axes : List String) (bounds : String → Val × Val)
    (st : DupState) (s : SourceDescriptor)
    (h : fsExists (if fsExists st.fs (newUfoPath e_axes s.filename) then rmtree st.fs (newUfoPath e_axes s.filename) else st.fs) (origUfoPath s.filename) = false) :
    dupStep e_axes bounds st s =
      { fs := if fsExists st.fs (newUfoPath e_axes s.filename) then rmtree st.fs (newUfoPath e_axes s.filename) else st.fs
        processed := st.processed ++ [updateSourceMin e_axes bounds s]
        new_sources := st.new_sources
        warnings := st.warnings ++ [missingSourceWarning s.filename] } := by
  simp only [dupStep, h, Bool.false_eq_true, if_false]

/-- Every source gets processed — its location forced to the minima and
appended to the processed list — whether or not its duplication is skipped. -/
theorem dup_foldl_processed (e_axes : List String) (bounds : String → Val × Val) :
    ∀ (sources : List SourceDescriptor) (st : DupState),
      (sources.foldl (dupStep e_axes bounds) st).processed
        = st.processed ++ sources.map (updateSourceMin e_axes bounds) := by
  intro sources
  induction sources with
  | nil => intro st; simp
  | cons s ss ih =>
    intro st
    simp only [List.foldl_cons]
    rw [ih]
    have hproc : (dupStep e_axes bounds st s).processed
        = st.processed ++ [updateSourceMin e_axes bounds s] := by
      cases hc : fsExists (if fsExists st.fs (newUfoPath e_axes s.filename) then rmtree st.fs (newUfoPath e_axes s.filename) else st.fs) (origUfoPath s.filename) with
      | true => rw [dupStep_ok e_axes bounds st s hc]
      | false => rw [dupStep_skip e_axes bounds st s hc]
    rw [hproc, List.map_cons, List.append_assoc]
    rfl

/-- When every source's master directory exists on the starting file system,
no source is skipped: the loop processes every original and builds exactly
one duplicate per original, in order, with no warnings. -/
theorem dup_foldl_no_skip (e_axes : List String) (bounds : String → Val × Val) :
    ∀ (sources : List SourceDescriptor) (st : DupState),
      (∀ s ∈ sources, origUfoPath s.filename ∈ st.fs) →
      (sources.foldl (dupStep e_axes bounds) st).processed
          = st.processed ++ sources.map (updateSourceMin e_axes bounds)
      ∧ (sources.foldl (dupStep e_axes bounds) st).new_sources
          = st.new_sources ++ sources.map (fun s => dupSource e_axes bounds (updateSourceMin e_axes bounds s))
      ∧ (sources.foldl (dupStep e_axes bounds) st).warnings = st.warnings := by
  intro sources
  induction sources with
  | nil => intro st _; simp
  | cons s ss ih =>
    intro st h
    simp only [List.foldl_cons]
    have hs : origUfoPath s.filename ∈ st.fs := h s (List.mem_cons_self _ _)
    have horig : fsExists (if fsExists st.fs (newUfoPath e_axes s.filename) then rmtree st.fs (newUfoPath e_axes s.filename) else st.fs) (origUfoPath s.filename) = true :=
      fsExists_iff.mpr (mem_fs1_of_ne st.fs _ _ (origUfoPath_ne_newUfoPath e_axes s.filename) hs)
    rw [dupStep_ok e_axes bounds st s horig]
    have hrest : ∀ t ∈ ss, origUfoPath t.filename
        ∈ copytree (if fsExists st.fs (newUfoPath e_axes s.filename) then rmtree st.fs (newUfoPath e_axes s.filename) else st.fs) (newUfoPath e_axes s.filename) := by
      intro t ht
      unfold copytree
      by_cases heq : origUfoPath t.filename = newUfoPath e_axes s.filename
      · rw [heq]
        exact List.mem_cons_self _ _
      · exact List.mem_cons_of_mem _ (mem_fs1_of_ne st.fs _ _ heq (h t (List.mem_cons_of_mem _ ht)))
    obtain ⟨h1, h2, h3⟩ := ih
      { fs := copytree (if fsExists st.fs (newUfoPath e_axes s.filename) then rmtree st.fs (newUfoPath e_axes s.filename) else st.fs) (newUfoPath e_axes s.filename)
        processed := st.processed ++ [updateSourceMin e_axes bounds s]
        new_sources := st.new_sources ++ [dupSource e_axes bounds (updateSourceMin e_axes bounds s)]
        warnings := st.warnings } hrest
    refine ⟨?_, ?_, ?_⟩
    · rw [h1, List.map_cons, List.append_assoc]
      rfl
    · rw [h2, List.map_cons, List.append_assoc]
      rfl
    · rw [h3]

/-- Claim C1: with a non-empty extension-axis set and every original's
master directory present on disk, the updated source list is exactly the
min-updated originals followed by one duplicate per original (appended only
after all originals); on every original each extension axis is forced to the
minimum — overwriting any pre-existing value — and on its duplicate to the
maximum, with all other axes untouched. -/
theorem c1_duplicate_sources (sources : List SourceDescriptor) (e_axes : List String)
    (bounds : String → Val × Val) (fs : FS)
    (_hne : e_axes ≠ [])
    (hex : ∀ s ∈ sources, origUfoPath s.filename ∈ fs) :
    (duplicate_sources_and_update_designspace sources e_axes bounds fs).1
      = sources.map (updateSourceMin e_axes bounds)
        ++ sources.map (fun s => dupSource e_axes bounds (updateSourceMin e_axes bounds s))
  ∧ ∀ s ∈ sources,
      (∀ a ∈ e_axes,
        (updateSourceMin e_axes bounds s).location.lookup a = some (bounds a).1
        ∧ (dupSource e_axes bounds (updateSourceMin e_axes bounds s)).location.lookup a = some (bounds a).2)
      ∧ ∀ a, a ∉ e_axes →
        (updateSourceMin e_axes bounds s).location.lookup a = s.location.lookup a
        ∧ (dupSource e_axes bounds (updateSourceMin e_axes bounds s)).location.lookup a = s.location.lookup a := by
  constructor
  · obtain ⟨h1, h2, -⟩ := dup_foldl_no_skip e_axes bounds sources
      { fs := fs, processed := [], new_sources := [], warnings := [] } hex
    show (sources.foldl (dupStep e_axes bounds) { fs := fs, processed := [], new_sources := [], warnings := [] }).processed
        ++ (sources.foldl (dupStep e_axes bounds) { fs := fs, processed := [], new_sources := [], warnings := [] }).new_sources = _
    rw [h1, h2]
    simp
  · intro s hs
    have hupd : (updateSourceMin e_axes bounds s).location
        = e_axes.foldl (fun l axis => dictInsert l axis (bounds axis).1) s.location := rfl
    have hdup : (dupSource e_axes bounds (updateSourceMin e_axes bounds s)).location
        = e_axes.foldl (fun l axis => dictInsert l axis (bounds axis).2) (updateSourceMin e_axes bounds s).location := rfl
    constructor
    · intro a ha
      constructor
      · rw [hupd, lookup_foldl_dictInsert (fun axis => (bounds axis).1) e_axes s.location a, if_pos ha]
      · rw [hdup, lookup_foldl_dictInsert (fun axis => (bounds axis).2) e_axes _ a, if_pos ha]
    · intro a ha
      constructor
      · rw [hupd, lookup_foldl_dictInsert (fun axis => (bounds axis).1) e_axes s.location a, if_neg ha]
      · rw [hdup, lookup_foldl_dictInsert (fun axis => (bounds axis).2) e_axes _ a, if_neg ha,
          hupd, lookup_foldl_dictInsert (fun axis => (bounds axis).1) e_axes s.location a, if_neg ha]

/-- Witness for C1: one source whose directory exists and one `Wdth-e` axis. -/
theorem c1_duplicate_sources_witness :
    (duplicate_sources_and_update_designspace c1Sources ["Wdth-e"] c1Bounds c1FS).1
      = c1Sources.map (updateSourceMin ["Wdth-e"] c1Bounds)
        ++ c1Sources.map (fun s => dupSource ["Wdth-e"] c1Bounds (updateSourceMin ["Wdth-e"] c1Bounds s))
  ∧ ((updateSourceMin ["Wdth-e"] c1Bounds c1Source).location.lookup "Wdth-e" = some (c1Bounds "Wdth-e").1
      ∧ (dupSource ["Wdth-e"] c1Bounds (updateSourceMin ["Wdth-e"] c1Bounds c1Source)).location.lookup "Wdth-e" = some (c1Bounds "Wdth-e").2) :=
  ⟨(c1_duplicate_sources c1Sources ["Wdth-e"] c1Bounds c1FS (by decide) (by decide)).1,
   ((c1_duplicate_sources c1Sources ["Wdth-e"] c1Bounds c1FS (by decide) (by decide)).2 c1Source (by decide)).1 "Wdth-e" (by decide)⟩

/-- A missing path stays missing after the conditional destination cleanup. -/
theorem fsExists_fs1_false (fs : FS) (dest orig : String)
    (hmiss : fsExists fs orig = false) :
    fsExists (if fsExists fs dest then rmtree fs dest else fs) orig = false := by
  by_cases hdest : fsExists fs dest = true
  · rw [if_pos hdest]
    cases hq : fsExists (rmtree fs dest) orig with
    | false => rfl
    | true =>
      exfalso
      have hmem' : orig ∈ fs := List.mem_of_mem_filter (fsExists_iff.mp hq)
      rw [fsExists_iff.mpr hmem'] at hmiss
      exact Bool.noConfusion hmiss
  · rw [if_neg hdest]
    exact hmiss

/-- Claim C8: a source whose master directory is missing is skipped with a
warning — no duplicate source descriptor is appended for it — and the loop
still processes it (its location is forced to the minima) and every
remaining source; the run does not fail. -/
theorem c8_missing_source_skipped (e_axes : List String) (bounds : String → Val × Val)
    (st : DupState) (bad : SourceDescriptor) (post : List SourceDescriptor)
    (hmiss : fsExists st.fs (origUfoPath bad.filename) = false) :
    (dupStep e_axes bounds st bad).new_sources = st.new_sources
  ∧ (dupStep e_axes bounds st bad).warnings = st.warnings ++ [missingSourceWarning bad.filename]
  ∧ ((bad :: post).foldl (dupStep e_axes bounds) st).processed
      = st.processed ++ (bad :: post).map (updateSourceMin e_axes bounds) := by
  have hmiss1 := fsExists_fs1_false st.fs (newUfoPath e_axes bad.filename) (origUfoPath bad.filename) hmiss
  refine ⟨?_, ?_, ?_⟩
  · rw [dupStep_skip e_axes bounds st bad hmiss1]
  · rw [dupStep_skip e_axes bounds st bad hmiss1]
  · rw [List.foldl_cons, dup_foldl_processed e_axes bounds post _,
      dupStep_skip e_axes bounds st bad hmiss1]
    show (st.processed ++ [updateSourceMin e_axes bounds bad]) ++ post.map (updateSourceMin e_axes bounds) = _
    rw [List.map_cons, List.append_assoc]
    rfl

/-- Witness for C8: the missing source is skipped and the remaining source is
still processed. -/
theorem c8_missing_source_skipped_witness :
    (dupStep ["Wdth-e"] c1Bounds c8State c8Missing).new_sources = c8State.new_sources
  ∧ (dupStep ["Wdth-e"] c1Bounds c8State c8Missing).warnings
      = c8State.warnings ++ [missingSourceWarning c8Missing.filename]
  ∧ ((c8Missing :: [c1Source]).foldl (dupStep ["Wdth-e"] c1Bounds) c8State).processed
      = c8State.processed ++ (c8Missing :: [c1Source]).map (updateSourceMin ["Wdth-e"] c1Bounds) :=
  c8_missing_source_skipped ["Wdth-e"] c1Bounds c8State c8Missing [c1Source] (by decide)

/-- Claim C10: when a stale duplicate directory exists at the destination
while the original's master directory is missing, the step deletes the
destination directory and then skips: afterwards nothing exists at the
destination and no new source was appended — the skip is not side-effect
free. -/
theorem c10_skip_deletes_stale_duplicate (e_axes : List String) (bounds : String → Val × Val)
    (st : DupState) (s : SourceDescriptor)
    (hdup : fsExists st.fs (newUfoPath e_axes s.filename) = true)
    (hmiss : fsExists st.fs (origUfoPath s.filename) = false) :
    (dupStep e_axes bounds st s).fs = rmtree st.fs (newUfoPath e_axes s.filename)
  ∧ fsExists (dupStep e_axes bounds st s).fs (newUfoPath e_axes s.filename) = false
  ∧ (dupStep e_axes bounds st s).new_sources = st.new_sources := by
  have hmiss1 := fsExists_fs1_false st.fs (newUfoPath e_axes s.filename) (origUfoPath s.filename) hmiss
  rw [dupStep_skip e_axes bounds st s hmiss1]
  refine ⟨?_, ?_, rfl⟩
  · show (if fsExists st.fs (newUfoPath e_axes s.filename) then rmtree st.fs (newUfoPath e_axes s.filename) else st.fs) = rmtree st.fs (newUfoPath e_axes s.filename)
    rw [if_pos hdup]
  · show fsExists (if fsExists st.fs (newUfoPath e_axes s.filename) then rmtree st.fs (newUfoPath e_axes s.filename) else st.fs) (newUfoPath e_axes s.filename) = false
    rw [if_pos hdup]
    cases hq : fsExists (rmtree st.fs (newUfoPath e_axes s.filename)) (newUfoPath e_axes s.filename) with
    | false => rfl
    | true =>
      exfalso
      have hmem := fsExists_iff.mp hq
      unfold rmtree at hmem
      rw [List.mem_filter] at hmem
      have h2 := hmem.2
      simp at h2

/-- Witness for C10: a stale `master_ufo/A-Wdth-eMax.ufo` is deleted even
though `master_ufo/A.ufo` is missing and the source is skipped. -/
theorem c10_skip_deletes_stale_duplicate_witness :
    (dupStep ["Wdth-e"] c1Bounds c10State c10Source).fs
      = rmtree c10State.fs (newUfoPath ["Wdth-e"] c10Source.filename)
  ∧ fsExists (dupStep ["Wdth-e"] c1Bounds c10State c10Source).fs (newUfoPath ["Wdth-e"] c10Source.filename) = false
  ∧ (dupStep ["Wdth-e"] c1Bounds c10State c10Source).new_sources = c10State.new_sources :=
  c10_skip_deletes_stale_duplicate ["Wdth-e"] c1Bounds c10State c10Source (by decide) (by decide)
